import Mathlib

/-!
Verification of the fraud-detection dashboard and model-serving stack
(`dashboard/dashboard_app.py`, `model_api/serve_model.py`,
`scripts/model_training.py`).

The Python data pipeline is shallowly embedded: pandas DataFrames become
lists of records, column assignments become record updates, fallible
operations (`astype('int64')` on a column holding missing values) become
`Except`-valued functions, and the in-place mutation structure of
`process_ecommerce_data` is modelled on an explicit heap of frames.
Timestamps are modelled as integer epoch seconds; `pd.to_datetime` on an
already-numeric timestamp is the identity in this embedding.
-/

namespace FraudDashboard

/-! ## `ip_to_int` (dashboard_app.py lines 15-31)

`socket.inet_aton` accepts the classic numbers-and-dots forms `a`,
`a.b`, `a.b.c` and `a.b.c.d`, each part bounded so the packed value fits
in 32 bits; `struct.unpack("!I", ...)` then reads the 4 packed bytes back
as the big-endian unsigned integer.  Numeric parts are modelled in
decimal, which is the only form the dashboard ever passes (`str(int(x))`).
The `try/except` wrapper is the `Option`: `none` is the `None` return. -/

/-- Value of a decimal digit character, `none` otherwise. -/
def digitVal? (c : Char) : Option Nat :=
  if '0' ≤ c ∧ c ≤ '9' then some (c.toNat - '0'.toNat) else none

/-- Decimal parse of one numbers-and-dots part; the empty part and any
non-digit character are rejected, as in `inet_aton`. -/
def parseDec (cs : List Char) : Option Nat :=
  match cs with
  | [] => none
  | _ =>
    cs.foldl
      (fun acc c => acc.bind fun n => (digitVal? c).map fun d => n * 10 + d)
      (some 0)

/-- Split a character list at every dot. -/
def splitDots : List Char → List (List Char)
  | [] => [[]]
  | c :: rest =>
    let groups := splitDots rest
    if c = '.' then [] :: groups
    else
      match groups with
      | [] => [[c]]
      | g :: gs => (c :: g) :: gs

def inetAton (s : String) : Option Nat :=
  match (splitDots s.toList).mapM parseDec with
  | none => none
  | some ns =>
    match ns with
    | [a] => if a < 2 ^ 32 then some a else none
    | [a, b] =>
        if a < 2 ^ 8 ∧ b < 2 ^ 24 then some (a * 2 ^ 24 + b) else none
    | [a, b, c] =>
        if a < 2 ^ 8 ∧ b < 2 ^ 8 ∧ c < 2 ^ 16 then
          some ((a * 2 ^ 8 + b) * 2 ^ 16 + c)
        else none
    | [a, b, c, d] =>
        if a < 2 ^ 8 ∧ b < 2 ^ 8 ∧ c < 2 ^ 8 ∧ d < 2 ^ 8 then
          some (((a * 2 ^ 8 + b) * 2 ^ 8 + c) * 2 ^ 8 + d)
        else none
    | _ => none

def ip_to_int (ip : String) : Option Nat :=
  inetAton ip

/-! ## Record types

One row of `Fraud_Data.csv` as loaded by `load_data`.  The `ip_address`
column is a float column whose values are integral; a missing entry
(`NaN`) is `none`.  `class` is the binary fraud label. -/

structure Transaction where
  user_id : Int
  signup_time : Int
  purchase_time : Int
  purchase_value : Int
  device_id : String
  src : String
  browser : String
  sex : String
  age : Int
  ip_address : Option Int
  cls : Int
  deriving Repr, DecidableEq

/-- One row of `IpAddress_to_Country.csv` after the `astype('int64')`
casts on lines 86-87. -/
structure IpRange where
  lower : Int
  upper : Int
  country : String
  deriving Repr, DecidableEq

/-- One row of `render_creditcard.csv`; only the `Class` label is read. -/
structure CreditRecord where
  Class : Int
  deriving Repr, DecidableEq

/-- A fraud row after the column assignments of lines 73-83: derived
`purchase_day` / `purchase_hour` columns and the `ip_int` column, which
still holds missing values (`None` from `ip_to_int`). -/
structure CleanRow where
  t : Transaction
  purchase_day : String
  purchase_hour : Int
  ip_int : Option Int
  deriving Repr, DecidableEq

/-- A fraud row after `astype('int64')` on line 88: `ip_int` is a plain
integer. -/
structure ReadyRow where
  t : Transaction
  purchase_day : String
  purchase_hour : Int
  ip_int : Int
  deriving Repr, DecidableEq

/-- A row of the returned frame: the fraud columns enriched with the
matched `country` (the range bounds are dropped on line 109). -/
structure Enriched where
  row : ReadyRow
  country : String
  deriving Repr, DecidableEq

/-! ## Cleaning steps (lines 73-83) -/

/-- `pd.to_datetime` on a timestamp already held as epoch seconds. -/
def toDatetime (ts : Int) : Int := ts

/-- `dt.day_name()`: day of week of an epoch-second timestamp
(1970-01-01 was a Thursday). -/
def dayName (ts : Int) : String :=
  (["Thursday", "Friday", "Saturday", "Sunday", "Monday", "Tuesday",
    "Wednesday"].getD ((ts / 86400) % 7).toNat "Thursday")

/-- `dt.hour` of an epoch-second timestamp. -/
def hourOf (ts : Int) : Int :=
  (ts / 3600) % 24

/-- Lines 73-74: `to_datetime` on the two time columns. -/
def stepToDatetime (c : CleanRow) : CleanRow :=
  { c with t := { c.t with
      signup_time := toDatetime c.t.signup_time
      purchase_time := toDatetime c.t.purchase_time } }

/-- Lines 77-78: derive `purchase_day` and `purchase_hour`. -/
def stepDayHour (c : CleanRow) : CleanRow :=
  { c with
    purchase_day := dayName c.t.purchase_time
    purchase_hour := hourOf c.t.purchase_time }

/-- Lines 81-83: `ip_int = ip_address.apply(lambda x: ip_to_int(str(int(x)))
if pd.notna(x) else None)`. -/
def stepIpInt (c : CleanRow) : CleanRow :=
  { c with ip_int := c.t.ip_address.bind fun v =>
      (ip_to_int (toString v)).map Int.ofNat }

/-- The copy on line 69 viewed with the derived columns still blank. -/
def initRow (t : Transaction) : CleanRow :=
  ⟨t, "", 0, none⟩

/-- Lines 69-83 for a single row. -/
def cleanRow (t : Transaction) : CleanRow :=
  stepIpInt (stepDayHour (stepToDatetime (initRow t)))

/-! ## `astype('int64')` on the `ip_int` column (line 88)

Casting a float column to `int64` raises when the column holds a
non-finite value, i.e. when `ip_to_int` returned `None` for any row. -/

def astypeErr : String :=
  "Cannot convert non-finite values (NA or inf) to integer"

def astypeCol : List CleanRow → Except String (List ReadyRow)
  | [] => .ok []
  | c :: rest =>
    match c.ip_int with
    | none => .error astypeErr
    | some v =>
      match astypeCol rest with
      | .ok rs => .ok (⟨c.t, c.purchase_day, c.purchase_hour, v⟩ :: rs)
      | .error e => .error e

/-! ## The as-of join (lines 91-109) -/

/-- `sort_values('lower_bound_ip_address')` (line 91). -/
def sortRanges (tbl : List IpRange) : List IpRange :=
  List.insertionSort (fun a b => a.lower ≤ b.lower) tbl

/-- `sort_values('ip_int')` on the left frame (line 95). -/
def sortReady (rows : List ReadyRow) : List ReadyRow :=
  List.insertionSort (fun a b => a.ip_int ≤ b.ip_int) rows

/-- `pd.merge_asof(..., direction='backward')` match for one key: the
last row of the (sorted) right table whose `lower` bound does not exceed
the key, `none` when no row qualifies. -/
def asofBackward : List IpRange → Int → Option IpRange
  | [], _ => none
  | r :: rest, v =>
    match asofBackward rest v with
    | some m => some m
    | none => if r.lower ≤ v then some r else none

/-- Lines 94-109: the as-of merge, the containment filter
(`lower ≤ ip_int ≤ upper`; a row whose match is missing compares as
`NaN` and is dropped), and the drop of the bound columns. -/
def mergeAndFilter (rows : List ReadyRow) (tbl : List IpRange) :
    List Enriched :=
  (sortReady rows).filterMap fun r =>
    match asofBackward tbl r.ip_int with
    | some rg =>
      if rg.lower ≤ r.ip_int ∧ r.ip_int ≤ rg.upper then
        some ⟨r, rg.country⟩
      else none
    | none => none

/-! ## `process_ecommerce_data` (lines 57-112), value-level -/

def process_ecommerce_data (fraud_data : List Transaction)
    (ip_country : List IpRange) : Except String (List Enriched) :=
  let fraud_data_cleaned := fraud_data.map cleanRow
  let ip_country_cleaned := ip_country
  match astypeCol fraud_data_cleaned with
  | .error e => .error e
  | .ok rows => .ok (mergeAndFilter rows (sortRanges ip_country_cleaned))

/-! ## The range-table invariant and the spec-side lookup -/

/-- The spec's invariant on `IpAddress_to_Country.csv`: genuine ranges
(`lower ≤ upper`), sorted ascending by lower bound, pairwise disjoint as
integer intervals. -/
def RangesOK (tbl : List IpRange) : Prop :=
  (∀ rg ∈ tbl, rg.lower ≤ rg.upper) ∧
  List.Sorted (fun a b : IpRange => a.lower ≤ b.lower) tbl ∧
  List.Pairwise
    (fun a b : IpRange => ∀ v : Int,
      a.lower ≤ v → v ≤ a.upper → b.lower ≤ v → v ≤ b.upper → False) tbl

/-- Direct interval-containment lookup, following the spec's contract:
the country of a range containing the value, or no match. -/
def directLookup (tbl : List IpRange) (v : Int) : Option String :=
  (tbl.find? fun rg => decide (rg.lower ≤ v ∧ v ≤ rg.upper)).map
    IpRange.country

/-! ## Sample rows for concrete evaluations -/

def mkTrans (ip : Option Int) (cls : Int) : Transaction :=
  ⟨1, 0, 3600, 10, "dev1", "SEO", "Chrome", "M", 30, ip, cls⟩

def mkEnriched (cls : Int) : Enriched :=
  ⟨⟨mkTrans (some 1) cls, "Thursday", 1, 1⟩, "United States"⟩

/-! ## `create_summary_stats` (lines 114-144)

`fraud_percentage` is `(column.sum() / len(df) * 100).round(2)`; rounding
to two decimals is modelled over `ℚ` (division by a zero length yields
`0`, the embedding's junk value — the dashboard only calls this on
non-empty frames). -/

/-- `.round(2)`: round to two decimal places. -/
def round2 (q : ℚ) : ℚ :=
  (round (q * 100) : Int) / 100

structure SummaryStats where
  total_transactions : Nat
  fraud_cases : Int
  fraud_percentage : ℚ
  deriving Repr, DecidableEq

def create_summary_stats (fraud_data : List Enriched)
    (credit_data : List CreditRecord) : SummaryStats × SummaryStats :=
  let ecom_stats : SummaryStats :=
    { total_transactions := fraud_data.length
      fraud_cases := (fraud_data.map (fun e => e.row.t.cls)).sum
      fraud_percentage :=
        round2 (((((fraud_data.map (fun e => e.row.t.cls)).sum : Int) : ℚ) /
          (fraud_data.length : ℚ)) * 100) }
  let credit_stats : SummaryStats :=
    { total_transactions := credit_data.length
      fraud_cases := (credit_data.map (fun c => c.Class)).sum
      fraud_percentage :=
        round2 (((((credit_data.map (fun c => c.Class)).sum : Int) : ℚ) /
          (credit_data.length : ℚ)) * 100) }
  (ecom_stats, credit_stats)

/-! ## `update_charts` (lines 318-428)

The callback reads `callback_context.triggered` (the list of fired
`prop_id`s), the choropleth click payload, and the two date-picker
values.  Dates are epoch seconds; `start_date and end_date` truthiness
is `Option.isSome`.  Figures carry the data series pandas hands to
plotly: lists of (group key, aggregated value) pairs. -/

/-- `geo_click_data['points'][i]['location']`: one clicked point; a
missing `location` key is `none`. -/
structure ClickPoint where
  location : Option String
  deriving Repr, DecidableEq

structure ClickData where
  points : List ClickPoint
  deriving Repr, DecidableEq

/-- The alert style dict: `{'display': 'none'}` or
`{'display': 'block', 'color': c}`. -/
structure AlertStyle where
  display : String
  color : Option String
  deriving Repr, DecidableEq

/-- `geo_click_data['points'][0]['location']` under the
`try/except (KeyError, IndexError)` of lines 368-379. -/
def extractCountry : ClickData → Except Unit String
  | ⟨[]⟩ => .error ()
  | ⟨p :: _⟩ =>
    match p.location with
    | none => .error ()
    | some c => .ok c

/-- `ctx.triggered[0]['prop_id'].split('.')[0]` (line 348): the
component id is everything before the first dot. -/
def buttonIdOf (propId : String) : String :=
  String.mk ((splitDots propId.toList).headD [])

/-- `start_date.date()` in the alert text: the date of an epoch-second
timestamp, shown as days since the epoch. -/
def fmtDate (ts : Int) : String :=
  toString (ts / 86400)

/-- Lines 334-379: the filter logic of `update_charts`, producing the
`filtered_data` the figures are built from, plus the alert message and
style. -/
def selectFilteredData (triggered : List String) (geo_click : Option ClickData)
    (start_date end_date : Option Int) (fraud_data_processed : List Enriched) :
    List Enriched × String × AlertStyle :=
  let filtered_data := fraud_data_processed
  let alert_message := ""
  let alert_style : AlertStyle := ⟨"none", none⟩
  let (alert_message, alert_style) :=
    if triggered = [] ∨ triggered.headD "" = "reset-button.n_clicks" then
      ("Displaying unfiltered data.", (⟨"block", some "blue"⟩ : AlertStyle))
    else (alert_message, alert_style)
  match triggered with
  | [] => (filtered_data, alert_message, alert_style)
  | propId :: _ =>
    let button_id := buttonIdOf propId
    if button_id = "filter-button" ∧ start_date.isSome ∧ end_date.isSome then
      let sd := start_date.getD 0
      let ed := end_date.getD 0
      ((fraud_data_processed.filter fun e =>
          sd ≤ e.row.t.purchase_time ∧ e.row.t.purchase_time ≤ ed),
       "Filters applied from " ++ fmtDate sd ++ " to " ++ fmtDate ed ++ ".",
       ⟨"block", some "green"⟩)
    else if button_id = "geo-distribution" ∧ geo_click.isSome then
      match extractCountry (geo_click.getD ⟨[]⟩) with
      | .ok country =>
        ((filtered_data.filter fun e => e.country = country),
         "Filtered by country: " ++ country,
         ⟨"block", some "green"⟩)
      | .error _ =>
        (filtered_data, "Error retrieving country data.",
         ⟨"block", some "red"⟩)
    else (filtered_data, alert_message, alert_style)

/-- `groupby(key)[col].sum()`: pandas sorts the group keys ascending
and sums the value column within each group. -/
def groupSum {K : Type} [DecidableEq K] (r : K → K → Prop) [DecidableRel r]
    (key : Enriched → K) (val : Enriched → Int) (rows : List Enriched) :
    List (K × Int) :=
  (List.insertionSort r (rows.map key).dedup).map fun k =>
    (k, ((rows.filter fun e => key e = k).map val).sum)

/-- `groupby(key).size()`. -/
def groupSize {K : Type} [DecidableEq K] (r : K → K → Prop) [DecidableRel r]
    (key : Enriched → K) (rows : List Enriched) : List (K × Nat) :=
  (List.insertionSort r (rows.map key).dedup).map fun k =>
    (k, (rows.filter fun e => key e = k).length)

/-- `groupby([k1, k2]).size().unstack().fillna(0)`: a count for every
pair of an occurring first key and an occurring second key, zero when
the combination is absent. -/
def groupSizeUnstack {K₁ K₂ : Type} [DecidableEq K₁] [DecidableEq K₂]
    (r₁ : K₁ → K₁ → Prop) [DecidableRel r₁] (r₂ : K₂ → K₂ → Prop)
    [DecidableRel r₂] (key₁ : Enriched → K₁) (key₂ : Enriched → K₂)
    (rows : List Enriched) : List ((K₁ × K₂) × Nat) :=
  (List.insertionSort r₁ (rows.map key₁).dedup).flatMap fun a =>
    (List.insertionSort r₂ (rows.map key₂).dedup).map fun b =>
      ((a, b),
       (rows.filter fun e => key₁ e = a ∧ key₂ e = b).length)

/-- `purchase_time.dt.date`, as days since the epoch. -/
def dateOf (e : Enriched) : Int :=
  e.row.t.purchase_time / 86400

/-- The five figures returned by `update_charts`, as the data series
behind each plotly figure. -/
structure Charts where
  fraud_trends : List (Int × Int)
  fraud_device : List ((String × Int) × Nat)
  fraud_browser : List ((String × Int) × Nat)
  fraud_hour : List (Int × Nat)
  fraud_day : List (String × Nat)
  deriving Repr, DecidableEq

def stringLe (a b : String) : Prop := a ≤ b

def intLe (a b : Int) : Prop := a ≤ b

instance : DecidableRel stringLe := fun a b => by
  unfold stringLe; infer_instance

instance : DecidableRel intLe := fun a b => by
  unfold intLe; infer_instance

/-- Lexicographic order on (string, int) group keys, as pandas sorts a
two-level group index. -/
def pairLe (a b : String × Int) : Prop :=
  a.1 < b.1 ∨ (a.1 = b.1 ∧ a.2 ≤ b.2)

instance : DecidableRel pairLe := fun a b => by
  unfold pairLe; infer_instance

/-- Lines 382-417: the figure data of `update_charts` built from the
filtered frame. -/
def buildCharts (filtered_data : List Enriched) : Charts :=
  { fraud_trends :=
      groupSum intLe dateOf (fun e => e.row.t.cls) filtered_data
    fraud_device :=
      groupSizeUnstack stringLe intLe (fun e => e.row.t.device_id)
        (fun e => e.row.t.cls) filtered_data
    fraud_browser :=
      groupSizeUnstack stringLe intLe (fun e => e.row.t.browser)
        (fun e => e.row.t.cls) filtered_data
    fraud_hour :=
      groupSize intLe (fun e => e.row.purchase_hour)
        (filtered_data.filter fun e => e.row.t.cls = 1)
    fraud_day :=
      groupSize stringLe (fun e => e.row.purchase_day)
        (filtered_data.filter fun e => e.row.t.cls = 1) }

/-- `update_charts` (lines 318-428): filter according to the trigger,
then build every figure from the filtered frame.  Figure generation is
total in this embedding, so the `except` fallback of lines 418-425 is
unreachable. -/
def update_charts (triggered : List String) (geo_click : Option ClickData)
    (start_date end_date : Option Int)
    (fraud_data_processed : List Enriched) :
    Charts × String × AlertStyle :=
  let (filtered_data, alert_message, alert_style) :=
    selectFilteredData triggered geo_click start_date end_date
      fraud_data_processed
  (buildCharts filtered_data, alert_message, alert_style)

end FraudDashboard

namespace ModelApi

/-! ## `serve_model.py`

The two prediction routes wrap their whole body in `try/except`,
returning the JSON body with Flask's default 200 status on success and
`jsonify({'error': ...}), 500` on any exception.  The loaded model
artifacts are external inputs, so a model is an `Except`-valued
function: an `.error` is an exception escaping `predict`/forward. -/

/-- A minimal JSON value, enough for the request bodies. -/
inductive Json where
  | null
  | num (q : ℚ)
  | str (s : String)
  | arr (xs : List Json)
  | obj (fields : List (String × Json))

/-- `data[key]`: dictionary access, `KeyError` when absent or when the
value is not an object. -/
def getKey (j : Json) (k : String) : Except String Json :=
  match j with
  | .obj fields =>
    match fields.lookup k with
    | some v => .ok v
    | none => .error ("KeyError: " ++ k)
  | _ => .error ("KeyError: " ++ k)

/-- `np.array(x)` of a flat numeric list, failing on anything else. -/
def asNumList (j : Json) : Except String (List ℚ) :=
  match j with
  | .arr xs =>
    xs.mapM fun x =>
      match x with
      | .num q => Except.ok q
      | _ => Except.error "could not convert to float"
  | _ => .error "could not convert to array"

/-- A JSON response body. -/
inductive ApiBody where
  | predictionB (v : Int)
  | creditcardB (probs : List (List ℚ))
  | errorB (msg : String)
  deriving Repr, DecidableEq

structure Response where
  status : Nat
  body : ApiBody
  deriving Repr, DecidableEq

/-- The `try/except` wrapper shared by both routes: a successful body
is returned with Flask's default 200, any exception becomes
`jsonify({'error': str(e)}), 500`. -/
def route200 {A : Type} (mk : A → ApiBody) (r : Except String A) :
    Response :=
  match r with
  | .ok a => ⟨200, mk a⟩
  | .error e => ⟨500, .errorB e⟩

/-- `predict_fraud` (serve_model.py lines 38-51).  `body` is the result
of `request.get_json()` (an exception for a malformed body), `model` is
the loaded decision tree. -/
def predict_fraud (model : List ℚ → Except String Int)
    (body : Except String Json) : Response :=
  route200 .predictionB (do
    let data ← body
    let features ← getKey data "features"
    let xs ← asNumList features
    model xs)

/-- `predict_creditcard` (serve_model.py lines 53-69). -/
def predict_creditcard (model : List ℚ → Except String (List (List ℚ)))
    (body : Except String Json) : Response :=
  route200 .creditcardB (do
    let data ← body
    let d ← getKey data "data"
    let xs ← asNumList d
    model xs)

end ModelApi

namespace Training

/-! ## `EarlyStopping` (scripts/model_training.py lines 67-84)

Losses are modelled as rationals. -/

structure EarlyStopping where
  patience : Nat
  delta : ℚ
  best_loss : Option ℚ
  counter : Nat
  early_stop : Bool
  deriving Repr, DecidableEq

/-- `EarlyStopping(patience, delta)`. -/
def EarlyStopping.mkNew (patience : Nat) (delta : ℚ) : EarlyStopping :=
  ⟨patience, delta, none, 0, false⟩

/-- `__call__(self, loss)`. -/
def EarlyStopping.call (s : EarlyStopping) (loss : ℚ) : EarlyStopping :=
  match s.best_loss with
  | none => { s with best_loss := some loss }
  | some b =>
    if loss > b + s.delta then
      let c := s.counter + 1
      { s with
        counter := c
        early_stop := if s.patience ≤ c then true else s.early_stop }
    else
      { s with best_loss := some loss, counter := 0 }

/-- Feeding a sequence of epoch losses to the stopper. -/
def EarlyStopping.run (s : EarlyStopping) (losses : List ℚ) : EarlyStopping :=
  losses.foldl EarlyStopping.call s

end Training

namespace FraudDashboard

/-! ## Heap model of `process_ecommerce_data` (lines 57-112)

To state what the function leaves untouched, the frames are cells of an
explicit heap; `.copy()` allocates a fresh cell and every in-place
operation (`inplace=True` sorts, column assignments) updates one cell.
Cell addresses are list indices; allocation appends. -/

inductive DF where
  | fraud (rows : List Transaction)
  | ranges (rows : List IpRange)
  | cleaned (rows : List CleanRow)
  | ready (rows : List ReadyRow)
  | result (rows : List Enriched)
  deriving Repr, DecidableEq

abbrev Heap : Type := List DF

def hget : Heap → Nat → Option DF
  | [], _ => none
  | d :: _, 0 => some d
  | _ :: rest, n + 1 => hget rest n

/-- In-place update of the cell at an address. -/
def hupd : Heap → Nat → (DF → DF) → Heap
  | [], _, _ => []
  | d :: rest, 0, f => f d :: rest
  | d :: rest, n + 1, f => d :: hupd rest n f

/-- Apply a row transform to a `.cleaned` frame. -/
def mapCleanedDF (f : CleanRow → CleanRow) : DF → DF
  | .cleaned rows => .cleaned (rows.map f)
  | d => d

/-- In-place `sort_values('lower_bound_ip_address')` on a range frame. -/
def sortRangesDF : DF → DF
  | .ranges rows => .ranges (sortRanges rows)
  | d => d

/-- Frame relation: every cell of the base heap is still present,
unchanged, in the evolved heap. -/
def Pres (base H : Heap) : Prop :=
  base.length ≤ H.length ∧ ∀ b : Nat, b < base.length → hget H b = hget base b

/-- `process_ecommerce_data` with the mutation structure explicit: the
two arguments are heap addresses, copies are fresh cells, and all
in-place work targets the copies.  Returns the final heap and the
address of the result frame (or the `astype` error). -/
def processHeap (h : Heap) (fdA icA : Nat) : Heap × Except String Nat :=
  match hget h fdA, hget h icA with
  | some (DF.fraud fd), some (DF.ranges ic) =>
    -- line 69: fraud_data_cleaned = fraud_data.copy()
    let fcA := h.length
    let h := h ++ [DF.cleaned (fd.map initRow)]
    -- line 70: ip_country_cleaned = ip_country.copy()
    let iccA := h.length
    let h := h ++ [DF.ranges ic]
    -- lines 73-74, 77-78, 81-83: column assignments on the fraud copy
    let h := hupd h fcA (mapCleanedDF stepToDatetime)
    let h := hupd h fcA (mapCleanedDF stepDayHour)
    let h := hupd h fcA (mapCleanedDF stepIpInt)
    -- lines 86-87: astype('int64') on the bound columns (already Int)
    let h := hupd h iccA id
    -- line 88: astype('int64') on ip_int; raises on a missing value
    match hget h fcA with
    | some (DF.cleaned rows) =>
      match astypeCol rows with
      | .error e => (h, .error e)
      | .ok ready =>
        let h := hupd h fcA (fun _ => DF.ready ready)
        -- line 91: in-place sort of the range copy
        let h := hupd h iccA sortRangesDF
        -- lines 94-109: merge_asof + containment filter + column drop
        match hget h fcA, hget h iccA with
        | some (DF.ready rrows), some (DF.ranges tbl) =>
          (h ++ [DF.result (mergeAndFilter rrows tbl)], .ok h.length)
        | _, _ => (h, .error "frame shape mismatch")
    | _ => (h, .error "frame shape mismatch")
  | _, _ => (h, .error "inputs are not loaded frames")

end FraudDashboard

/-! # Theorems -/

namespace FraudDashboard

/-- Every value `inetAton` accepts fits in 32 bits. -/
theorem inetAton_lt (s : String) (n : Nat) (h : inetAton s = some n) :
    n < 2 ^ 32 := by
  unfold inetAton at h
  split at h
  · cases h
  · split at h
    all_goals try cases h
    all_goals split_ifs at h with hc
    all_goals try cases h
    all_goals omega

/-- C10: for every string input, `ip_to_int` never raises: it returns
either `None` (the string is not an IPv4 address `inet_aton` accepts)
or an unsigned integer below `2^32`. -/
theorem ip_to_int_none_or_lt (s : String) :
    ip_to_int s = none ∨ ∃ n, ip_to_int s = some n ∧ n < 2 ^ 32 := by
  cases h : ip_to_int s with
  | none => exact Or.inl rfl
  | some n => exact Or.inr ⟨n, rfl, inetAton_lt s n h⟩

/-- C3: the spec promises that an invalid or missing IP resolves to "no
match" without failing the batch, but `process_ecommerce_data` raises:
`ip_to_int` dutifully yields `None` for a missing `ip_address` and for
a value outside 32 bits, and the `astype('int64')` on line 88 then
fails on the non-finite column value, aborting the whole batch. -/
theorem astype_raises_on_missing_ip :
    (cleanRow (mkTrans none 0)).ip_int = none ∧
    process_ecommerce_data [mkTrans none 0]
      [⟨16777216, 16777471, "Australia"⟩] = .error astypeErr ∧
    ip_to_int (toString (4294967296 : Int)) = none ∧
    process_ecommerce_data [mkTrans (some 4294967296) 0]
      [⟨16777216, 16777471, "Australia"⟩] = .error astypeErr :=
  ⟨rfl, rfl, by decide, rfl⟩

/-- C2 counterexample: a transaction whose IP integer (50) falls in no
range of the table is not kept in the result with an absent country:
the containment filter drops the row and the output is empty. -/
theorem unmatched_transaction_dropped :
    process_ecommerce_data [mkTrans (some 50) 0] [⟨0, 10, "Albania"⟩] =
      .ok [] ∧
    (∀ rg ∈ [(⟨0, 10, "Albania"⟩ : IpRange)],
      ¬(rg.lower ≤ 50 ∧ (50 : Int) ≤ rg.upper)) :=
  ⟨rfl, by decide⟩

/-- C4 counterexample: with 3 transactions of which 1 is fraudulent,
`fraud_percentage` is the rounded `33.33`, not the exact
`100 * 1 / 3`. -/
theorem fraud_percentage_not_exact :
    (create_summary_stats [mkEnriched 1, mkEnriched 0, mkEnriched 0]
      [⟨0⟩]).1.total_transactions = 3 ∧
    (create_summary_stats [mkEnriched 1, mkEnriched 0, mkEnriched 0]
      [⟨0⟩]).1.fraud_cases = 1 ∧
    (create_summary_stats [mkEnriched 1, mkEnriched 0, mkEnriched 0]
      [⟨0⟩]).1.fraud_percentage ≠ 100 * ((1 : ℚ) / 3) := by
  refine ⟨rfl, rfl, ?_⟩
  have hfp : (create_summary_stats [mkEnriched 1, mkEnriched 0, mkEnriched 0]
      [⟨0⟩]).1.fraud_percentage = round2 (1 / 3 * 100) := by
    norm_num [create_summary_stats, mkEnriched, mkTrans]
  rw [hfp]
  unfold round2
  rw [round_eq]
  norm_num

end FraudDashboard

namespace ModelApi

/-- The `try/except` wrapper always produces a response: 200 with the
handler's body on success, 500 with the error body otherwise. -/
theorem route200_cases {A : Type} (mk : A → ApiBody)
    (r : Except String A) :
    (∃ a, r = .ok a ∧ route200 mk r = ⟨200, mk a⟩) ∨
    (∃ e, r = .error e ∧ route200 mk r = ⟨500, .errorB e⟩) := by
  cases r with
  | ok a => exact Or.inl ⟨a, rfl, rfl⟩
  | error e => exact Or.inr ⟨e, rfl, rfl⟩

/-- C6: each prediction endpoint returns a response for every request
body: a 200 JSON prediction body on success, otherwise a 500 JSON error
body; an exception from body parsing propagates into the error body
rather than crashing the handler. -/
theorem predict_endpoints_respond
    (fraudModel : List ℚ → Except String Int)
    (creditModel : List ℚ → Except String (List (List ℚ)))
    (fraudBody creditBody : Except String Json) :
    ((predict_fraud fraudModel fraudBody).status = 200 ∧
       (∃ v, (predict_fraud fraudModel fraudBody).body =
         ApiBody.predictionB v) ∨
     (predict_fraud fraudModel fraudBody).status = 500 ∧
       (∃ m, (predict_fraud fraudModel fraudBody).body =
         ApiBody.errorB m)) ∧
    ((predict_creditcard creditModel creditBody).status = 200 ∧
       (∃ ps, (predict_creditcard creditModel creditBody).body =
         ApiBody.creditcardB ps) ∨
     (predict_creditcard creditModel creditBody).status = 500 ∧
       (∃ m, (predict_creditcard creditModel creditBody).body =
         ApiBody.errorB m)) ∧
    (∀ e, fraudBody = .error e →
      predict_fraud fraudModel fraudBody = ⟨500, .errorB e⟩) ∧
    (∀ e, creditBody = .error e →
      predict_creditcard creditModel creditBody = ⟨500, .errorB e⟩) := by
  refine ⟨?_, ?_, ?_, ?_⟩
  · rcases route200_cases ApiBody.predictionB (do
        let data ← fraudBody
        let features ← getKey data "features"
        let xs ← asNumList features
        fraudModel xs) with ⟨a, _, hr⟩ | ⟨e, _, hr⟩
    · exact Or.inl (by rw [predict_fraud, hr]; exact ⟨rfl, a, rfl⟩)
    · exact Or.inr (by rw [predict_fraud, hr]; exact ⟨rfl, e, rfl⟩)
  · rcases route200_cases ApiBody.creditcardB (do
        let data ← creditBody
        let d ← getKey data "data"
        let xs ← asNumList d
        creditModel xs) with ⟨a, _, hr⟩ | ⟨e, _, hr⟩
    · exact Or.inl (by rw [predict_creditcard, hr]; exact ⟨rfl, a, rfl⟩)
    · exact Or.inr (by rw [predict_creditcard, hr]; exact ⟨rfl, e, rfl⟩)
  · intro e he
    rw [he]
    rfl
  · intro e he
    rw [he]
    rfl

end ModelApi

namespace FraudDashboard

/-- C5: when the date-range filter branch of `update_charts` applies
(the filter button fired with both dates set), every record of the
filtered frame has `purchase_time` within `[start_date, end_date]`. -/
theorem date_filter_within_range (propId : String) (rest : List String)
    (click : Option ClickData) (sd ed : Int) (data : List Enriched)
    (hbtn : buttonIdOf propId = "filter-button") (e : Enriched)
    (he : e ∈ (selectFilteredData (propId :: rest) click (some sd)
      (some ed) data).1) :
    sd ≤ e.row.t.purchase_time ∧ e.row.t.purchase_time ≤ ed := by
  unfold selectFilteredData at he
  simp only [hbtn, Option.isSome_some, and_true, if_pos, Option.getD_some,
    if_true, List.mem_filter, decide_eq_true_eq] at he
  exact he.2

/-- Witness for `date_filter_within_range` at a concrete invocation. -/
theorem date_filter_within_range_witness :
    (0 : Int) ≤ (mkEnriched 1).row.t.purchase_time ∧
    (mkEnriched 1).row.t.purchase_time ≤ 7200 :=
  date_filter_within_range "filter-button.n_clicks" [] none 0 7200
    [mkEnriched 1] (by decide) (mkEnriched 1) (by decide)

end FraudDashboard

namespace FraudDashboard

/-- Rounding to two decimals moves a rational by at most `1/200`. -/
theorem abs_round2_sub (q : ℚ) : |round2 q - q| ≤ 1 / 200 := by
  unfold round2
  have h : |q * 100 - ((round (q * 100) : Int) : ℚ)| ≤ 1 / 2 :=
    abs_sub_round (q * 100)
  have h2 : ((round (q * 100) : Int) : ℚ) / 100 - q =
      -((q * 100 - ((round (q * 100) : Int) : ℚ)) / 100) := by ring
  rw [h2, abs_neg, abs_div]
  have h100 : |(100 : ℚ)| = 100 := by norm_num
  rw [h100]
  calc |q * 100 - ((round (q * 100) : Int) : ℚ)| / 100
      ≤ (1 / 2) / 100 := (div_le_div_right (by norm_num : (0 : ℚ) < 100)).mpr h
    _ = 1 / 200 := by norm_num

/-- C4 (amended): on non-empty datasets, both summary dictionaries hold
the record count, the fraud-label sum, and the fraud percentage equal to
`100 * fraud_cases / total_transactions` rounded to two decimals — hence
within `1/200` of the exact ratio. -/
theorem fraud_percentage_rounded (fd : List Enriched) (cd : List CreditRecord)
    (hfd : 1 ≤ fd.length) (hcd : 1 ≤ cd.length) :
    ((create_summary_stats fd cd).1.total_transactions = fd.length ∧
     (create_summary_stats fd cd).1.fraud_cases =
       (fd.map fun e => e.row.t.cls).sum ∧
     (create_summary_stats fd cd).1.fraud_percentage =
       round2 (100 * (((fd.map fun e => e.row.t.cls).sum : Int) : ℚ) /
         (fd.length : ℚ)) ∧
     |(create_summary_stats fd cd).1.fraud_percentage -
       100 * (((fd.map fun e => e.row.t.cls).sum : Int) : ℚ) /
         (fd.length : ℚ)| ≤ 1 / 200) ∧
    ((create_summary_stats fd cd).2.total_transactions = cd.length ∧
     (create_summary_stats fd cd).2.fraud_cases =
       (cd.map fun c => c.Class).sum ∧
     (create_summary_stats fd cd).2.fraud_percentage =
       round2 (100 * (((cd.map fun c => c.Class).sum : Int) : ℚ) /
         (cd.length : ℚ)) ∧
     |(create_summary_stats fd cd).2.fraud_percentage -
       100 * (((cd.map fun c => c.Class).sum : Int) : ℚ) /
         (cd.length : ℚ)| ≤ 1 / 200) := by
  have unf1 : (create_summary_stats fd cd).1.fraud_percentage =
      round2 ((((fd.map fun e => e.row.t.cls).sum : Int) : ℚ) /
        (fd.length : ℚ) * 100) := rfl
  have unf2 : (create_summary_stats fd cd).2.fraud_percentage =
      round2 ((((cd.map fun c => c.Class).sum : Int) : ℚ) /
        (cd.length : ℚ) * 100) := rfl
  have hq1 : 100 * (((fd.map fun e => e.row.t.cls).sum : Int) : ℚ) /
      (fd.length : ℚ) =
      (((fd.map fun e => e.row.t.cls).sum : Int) : ℚ) / (fd.length : ℚ) * 100 := by
    ring
  have hq2 : 100 * (((cd.map fun c => c.Class).sum : Int) : ℚ) /
      (cd.length : ℚ) =
      (((cd.map fun c => c.Class).sum : Int) : ℚ) / (cd.length : ℚ) * 100 := by
    ring
  refine ⟨⟨rfl, rfl, ?_, ?_⟩, rfl, rfl, ?_, ?_⟩
  · rw [unf1, hq1]
  · rw [unf1, hq1]
    exact abs_round2_sub _
  · rw [unf2, hq2]
  · rw [unf2, hq2]
    exact abs_round2_sub _

/-- Witness for `fraud_percentage_rounded` at a one-row dataset. -/
theorem fraud_percentage_rounded_witness :
    (create_summary_stats [mkEnriched 1] [⟨1⟩]).1.fraud_percentage =
      round2 (100 * ((([mkEnriched 1].map fun e => e.row.t.cls).sum : Int) : ℚ) /
        (([mkEnriched 1] : List Enriched).length : ℚ)) :=
  (fraud_percentage_rounded [mkEnriched 1] [⟨1⟩] (by decide) (by decide)).1.2.2.1

end FraudDashboard

namespace Training

/-- `__call__` never changes `patience`. -/
theorem call_patience (s : EarlyStopping) (x : ℚ) :
    (s.call x).patience = s.patience := by
  rcases s with ⟨p, d, bl, c, es⟩
  cases bl with
  | none => rfl
  | some b =>
    unfold EarlyStopping.call
    dsimp only
    split_ifs <;> rfl

/-- Once `early_stop` is set it is never cleared by a call. -/
theorem call_stop_true (s : EarlyStopping) (x : ℚ)
    (h : s.early_stop = true) : (s.call x).early_stop = true := by
  rcases s with ⟨p, d, bl, c, es⟩
  cases bl with
  | none => exact h
  | some b =>
    unfold EarlyStopping.call
    dsimp only
    dsimp only at h
    split_ifs with h1 h2
    · rfl
    · exact h
    · exact h

/-- `early_stop` persists over any further sequence of calls. -/
theorem run_stop_persists (l : List ℚ) :
    ∀ s : EarlyStopping, s.early_stop = true → (s.run l).early_stop = true := by
  induction l with
  | nil => intro s h; exact h
  | cons x xs ih => intro s h; exact ih (s.call x) (call_stop_true s x h)

/-- One call preserves the invariant "if not stopped, the counter is
still below `patience`". -/
theorem call_counter_lt (s : EarlyStopping) (x : ℚ) (hp : 1 ≤ s.patience)
    (h : s.early_stop = false → s.counter < s.patience) :
    (s.call x).early_stop = false → (s.call x).counter < (s.call x).patience := by
  rcases s with ⟨p, d, bl, c, es⟩
  dsimp only at hp h
  cases bl with
  | none => exact h
  | some b =>
    unfold EarlyStopping.call
    dsimp only
    split_ifs with hgt hpc
    all_goals intro hes
    all_goals dsimp only at hes ⊢
    all_goals try cases hes
    all_goals omega

/-- The invariant holds along any run, and `patience` is unchanged. -/
theorem run_counter_invariant (l : List ℚ) :
    ∀ s : EarlyStopping, 1 ≤ s.patience →
      (s.early_stop = false → s.counter < s.patience) →
      ((s.run l).patience = s.patience ∧
       ((s.run l).early_stop = false → (s.run l).counter < (s.run l).patience)) := by
  induction l with
  | nil => intro s _ h2; exact ⟨rfl, h2⟩
  | cons x xs ih =>
    intro s h1 h2
    have hp' : (s.call x).patience = s.patience := call_patience s x
    have hrec := ih (s.call x) (by rw [hp']; exact h1) (call_counter_lt s x h1 h2)
    refine ⟨?_, hrec.2⟩
    show ((s.call x).run xs).patience = s.patience
    rw [hrec.1, hp']

/-- From a fresh counter and a current best `b`, a run of calls that are
all strictly worse than `b` trips `early_stop` exactly when it is at
least `patience - counter` long. -/
theorem run_all_bad (p : Nat) (b : ℚ) (l : List ℚ) :
    ∀ c : Nat, c < p → (∀ x ∈ l, b < x) →
      (((⟨p, 0, some b, c, false⟩ : EarlyStopping).run l).early_stop = true ↔
        p ≤ c + l.length) := by
  induction l with
  | nil =>
    intro c hc _
    show (false = true) ↔ p ≤ c + ([] : List ℚ).length
    simp only [List.length_nil]
    constructor
    · intro h
      cases h
    · intro h
      omega
  | cons x xs ih =>
    intro c hc hall
    have hx : b < x := hall x (List.mem_cons_self x xs)
    have hcall : (⟨p, 0, some b, c, false⟩ : EarlyStopping).call x =
        ⟨p, 0, some b, c + 1, if p ≤ c + 1 then true else false⟩ := by
      unfold EarlyStopping.call
      dsimp only
      rw [if_pos (by rw [add_zero]; exact hx)]
    show (((⟨p, 0, some b, c, false⟩ : EarlyStopping).call x).run xs).early_stop =
        true ↔ p ≤ c + (xs.length + 1)
    rw [hcall]
    by_cases hpc : p ≤ c + 1
    · rw [if_pos hpc]
      exact iff_of_true (run_stop_persists xs _ rfl) (by omega)
    · rw [if_neg hpc]
      rw [ih (c + 1) (by omega) (fun y hy => hall y (List.mem_cons_of_mem x hy))]
      omega

/-- C9 counterexample: with `patience = 1` and losses `1, 2, 3`, the
counter reaches `2`, strictly exceeding `patience` — the code keeps
incrementing the counter after `early_stop` is already set. -/
theorem counter_exceeds_patience :
    ((EarlyStopping.mkNew 1 0).run [1, 2, 3]).counter = 2 ∧
    (EarlyStopping.mkNew 1 0).patience = 1 ∧
    ¬(((EarlyStopping.mkNew 1 0).run [1, 2, 3]).counter ≤
        (EarlyStopping.mkNew 1 0).patience) := by
  have c1 : (EarlyStopping.mkNew 1 0).call 1 = ⟨1, 0, some 1, 0, false⟩ := rfl
  have c2 : (⟨1, 0, some 1, 0, false⟩ : EarlyStopping).call 2 =
      ⟨1, 0, some 1, 1, true⟩ := by
    unfold EarlyStopping.call
    dsimp only
    rw [if_pos (by norm_num : (2 : ℚ) > 1 + 0)]
    exact rfl
  have c3 : (⟨1, 0, some 1, 1, true⟩ : EarlyStopping).call 3 =
      ⟨1, 0, some 1, 2, true⟩ := by
    unfold EarlyStopping.call
    dsimp only
    rw [if_pos (by norm_num : (3 : ℚ) > 1 + 0)]
    exact rfl
  have hrun : (EarlyStopping.mkNew 1 0).run [1, 2, 3] =
      ⟨1, 0, some 1, 2, true⟩ := by
    show (((EarlyStopping.mkNew 1 0).call 1).call 2).call 3 = _
    rw [c1, c2, c3]
  rw [hrun]
  exact ⟨rfl, rfl, by decide⟩

/-- C9 (amended): with `delta = 0`: the best loss is non-increasing, a
call with `loss ≤ best_loss` resets the counter and takes over as best;
as long as `early_stop` is still `False` the counter stays below
`patience` (it can exceed `patience` only after stopping, which the
counterexample exhibits); and from a fresh counter `early_stop` fires
exactly when a run of `patience` consecutive calls are each strictly
worse than the current best. -/
theorem early_stopping_invariants :
    (∀ (s : EarlyStopping) (loss b : ℚ), s.delta = 0 → s.best_loss = some b →
      ∃ b', (s.call loss).best_loss = some b' ∧ b' ≤ b) ∧
    (∀ (s : EarlyStopping) (loss b : ℚ), s.delta = 0 → s.best_loss = some b →
      loss ≤ b → (s.call loss).counter = 0 ∧ (s.call loss).best_loss = some loss) ∧
    (∀ (p : Nat) (l : List ℚ), 1 ≤ p →
      ((EarlyStopping.mkNew p 0).run l).early_stop = false →
      ((EarlyStopping.mkNew p 0).run l).counter < p) ∧
    (∀ (p : Nat) (b : ℚ) (l : List ℚ), 1 ≤ p → (∀ x ∈ l, b < x) →
      (((⟨p, 0, some b, 0, false⟩ : EarlyStopping).run l).early_stop = true ↔
        p ≤ l.length)) := by
  refine ⟨?_, ?_, ?_, ?_⟩
  · intro s loss b hd hb
    rcases s with ⟨p, d, bl, c, es⟩
    dsimp only at hd hb
    subst hd
    subst hb
    unfold EarlyStopping.call
    dsimp only
    by_cases hlt : loss > b + 0
    · rw [if_pos hlt]
      exact ⟨b, rfl, le_refl b⟩
    · rw [if_neg hlt]
      rw [add_zero] at hlt
      exact ⟨loss, rfl, le_of_not_lt hlt⟩
  · intro s loss b hd hb hle
    rcases s with ⟨p, d, bl, c, es⟩
    dsimp only at hd hb
    subst hd
    subst hb
    unfold EarlyStopping.call
    dsimp only
    by_cases hlt : loss > b + 0
    · rw [add_zero] at hlt
      exact absurd hlt (not_lt.mpr hle)
    · rw [if_neg hlt]
      exact ⟨rfl, rfl⟩
  · intro p l hp hes
    have hinv := run_counter_invariant l (EarlyStopping.mkNew p 0) hp
      (fun _ => hp)
    have h2 := hinv.2 hes
    rwa [hinv.1] at h2
  · intro p b l hp hall
    have h := run_all_bad p b l 0 hp hall
    rwa [Nat.zero_add] at h

/-- Witness for `early_stopping_invariants`: one strictly-worse call
with `patience = 1` fires `early_stop`. -/
theorem early_stopping_invariants_witness :
    ((⟨1, 0, some 0, 0, false⟩ : EarlyStopping).run [1]).early_stop = true :=
  (early_stopping_invariants.2.2.2 1 0 [1] (le_refl 1)
    (fun x hx => by
      rw [List.mem_singleton] at hx
      rw [hx]
      norm_num)).mpr (by decide)

end Training

namespace FraudDashboard

/-- Reading below the old length is unaffected by appending frames. -/
theorem hget_append_lt (h : Heap) (ds : List DF) (a : Nat)
    (ha : a < h.length) : hget (h ++ ds) a = hget h a := by
  induction h generalizing a with
  | nil => exact absurd ha (Nat.not_lt_zero a)
  | cons d rest ih =>
    cases a with
    | zero => rfl
    | succ n => exact ih n (by simpa using ha)

/-- Reading one address is unaffected by updating another. -/
theorem hget_hupd_ne (h : Heap) (a b : Nat) (f : DF → DF) (hne : a ≠ b) :
    hget (hupd h a f) b = hget h b := by
  induction h generalizing a b with
  | nil => rfl
  | cons d rest ih =>
    cases a with
    | zero =>
      cases b with
      | zero => exact absurd rfl hne
      | succ m => rfl
    | succ n =>
      cases b with
      | zero => rfl
      | succ m => exact ih n m (by omega)

/-- In-place updates do not change the heap size. -/
theorem hupd_length (h : Heap) (a : Nat) (f : DF → DF) :
    (hupd h a f).length = h.length := by
  induction h generalizing a with
  | nil => rfl
  | cons d rest ih =>
    cases a with
    | zero => rfl
    | succ n => exact congrArg Nat.succ (ih n)

theorem pres_refl (h : Heap) : Pres h h :=
  ⟨le_refl _, fun _ _ => rfl⟩

theorem pres_append {base H : Heap} (hp : Pres base H) {ds : List DF} :
    Pres base (H ++ ds) := by
  refine ⟨?_, fun b hb => ?_⟩
  · rw [List.length_append]
    exact le_trans hp.1 (Nat.le_add_right _ _)
  · rw [hget_append_lt H ds b (lt_of_lt_of_le hb hp.1)]
    exact hp.2 b hb

theorem pres_hupd {base H : Heap} (hp : Pres base H) {n : Nat}
    (hn : base.length ≤ n) {f : DF → DF} : Pres base (hupd H n f) := by
  refine ⟨?_, fun b hb => ?_⟩
  · rw [hupd_length]
    exact hp.1
  · rw [hget_hupd_ne H n b f (by omega)]
    exact hp.2 b hb

/-- The frame conclusion for the two input addresses. -/
theorem pres_frame {h H : Heap} {fdA icA : Nat} (hp : Pres h H)
    (hfd : fdA < h.length) (hic : icA < h.length) :
    hget H fdA = hget h fdA ∧ hget H icA = hget h icA :=
  ⟨hp.2 fdA hfd, hp.2 icA hic⟩

end FraudDashboard

namespace FraudDashboard

/-- Appending frames only grows the heap. -/
theorem length_le_append (h : Heap) (ds : List DF) :
    h.length ≤ (h ++ ds).length := by
  rw [List.length_append]
  exact Nat.le_add_right _ _

/-- C7: `process_ecommerce_data` never mutates its inputs: in the heap
model, every cleaning, enrichment and joining step targets the freshly
allocated copies, so the cells holding the loaded `fraud_data` and
`ip_country` frames are unchanged after the call, whether it succeeds
or raises. -/
theorem process_heap_preserves_inputs (h : Heap) (fdA icA : Nat)
    (hfd : fdA < h.length) (hic : icA < h.length) :
    hget (processHeap h fdA icA).1 fdA = hget h fdA ∧
    hget (processHeap h fdA icA).1 icA = hget h icA := by
  unfold processHeap
  cases hf : hget h fdA with
  | none => exact ⟨hf, rfl⟩
  | some df =>
    cases hi2 : hget h icA with
    | none => cases df <;> exact ⟨hf, hi2⟩
    | some di =>
      cases df with
      | fraud fd =>
        cases di with
        | ranges ic =>
          dsimp only
          split
          all_goals try split
          all_goals try split
          all_goals dsimp only
          all_goals rw [← hf, ← hi2]
          all_goals
            first
            | exact pres_frame
                (pres_hupd
                  (pres_hupd
                    (pres_hupd
                      (pres_hupd
                        (pres_append (pres_append (pres_refl h)))
                        (le_refl _))
                      (le_refl _))
                    (le_refl _))
                  (length_le_append _ _))
                hfd hic
            | exact pres_frame
                (pres_append
                  (pres_hupd
                    (pres_hupd
                      (pres_hupd
                        (pres_hupd
                          (pres_hupd
                            (pres_hupd
                              (pres_append (pres_append (pres_refl h)))
                              (le_refl _))
                            (le_refl _))
                          (le_refl _))
                        (length_le_append _ _))
                      (le_refl _))
                    (length_le_append _ _)))
                hfd hic
            | exact pres_frame
                (pres_hupd
                  (pres_hupd
                    (pres_hupd
                      (pres_hupd
                        (pres_hupd
                          (pres_hupd
                            (pres_append (pres_append (pres_refl h)))
                            (le_refl _))
                          (le_refl _))
                        (le_refl _))
                      (length_le_append _ _))
                    (le_refl _))
                  (length_le_append _ _))
                hfd hic
        | fraud x => exact ⟨hf, hi2⟩
        | cleaned x => exact ⟨hf, hi2⟩
        | ready x => exact ⟨hf, hi2⟩
        | result x => exact ⟨hf, hi2⟩
      | ranges x => cases di <;> exact ⟨hf, hi2⟩
      | cleaned x => cases di <;> exact ⟨hf, hi2⟩
      | ready x => cases di <;> exact ⟨hf, hi2⟩
      | result x => cases di <;> exact ⟨hf, hi2⟩

/-- Witness for `process_heap_preserves_inputs` on a two-cell heap. -/
theorem process_heap_preserves_inputs_witness :
    hget (processHeap [DF.fraud [], DF.ranges []] 0 1).1 0 =
      hget [DF.fraud [], DF.ranges []] 0 ∧
    hget (processHeap [DF.fraud [], DF.ranges []] 0 1).1 1 =
      hget [DF.fraud [], DF.ranges []] 1 :=
  process_heap_preserves_inputs [DF.fraud [], DF.ranges []] 0 1
    (by decide) (by decide)

end FraudDashboard

namespace FraudDashboard

/-- A backward as-of match is a row of the table. -/
theorem asofBackward_mem {tbl : List IpRange} {v : Int} {rg : IpRange}
    (h : asofBackward tbl v = some rg) : rg ∈ tbl := by
  induction tbl with
  | nil => cases h
  | cons x rest ih =>
    unfold asofBackward at h
    cases hr : asofBackward rest v with
    | some m =>
      rw [hr] at h
      injection h with h
      subst h
      exact List.mem_cons_of_mem x (ih hr)
    | none =>
      rw [hr] at h
      split_ifs at h with hle
      all_goals try cases h
      all_goals exact List.mem_cons_self _ _

/-- A backward as-of match has its lower bound at or below the key. -/
theorem asofBackward_lower_le {tbl : List IpRange} {v : Int} {rg : IpRange}
    (h : asofBackward tbl v = some rg) : rg.lower ≤ v := by
  induction tbl with
  | nil => cases h
  | cons x rest ih =>
    unfold asofBackward at h
    cases hr : asofBackward rest v with
    | some m =>
      rw [hr] at h
      injection h with h
      subst h
      exact ih hr
    | none =>
      rw [hr] at h
      split_ifs at h with hle
      all_goals try cases h
      all_goals exact hle

/-- If no lower bound is at or below the key, there is no match. -/
theorem asofBackward_eq_none {tbl : List IpRange} {v : Int}
    (h : ∀ rg ∈ tbl, ¬rg.lower ≤ v) : asofBackward tbl v = none := by
  induction tbl with
  | nil => rfl
  | cons x rest ih =>
    unfold asofBackward
    rw [ih fun rg hrg => h rg (List.mem_cons_of_mem x hrg)]
    rw [if_neg (h x (List.mem_cons_self x rest))]

/-- On a well-formed, sorted, pairwise-disjoint range table, the
backward as-of match of any value lying inside some range is exactly
that range: sort + nearest-predecessor lookup agrees with direct
interval containment. -/
theorem asofBackward_of_contains {tbl : List IpRange}
    (hwf : ∀ rg ∈ tbl, rg.lower ≤ rg.upper)
    (hsort : List.Sorted (fun a b : IpRange => a.lower ≤ b.lower) tbl)
    (hdisj : List.Pairwise (fun a b : IpRange => ∀ w : Int,
      a.lower ≤ w → w ≤ a.upper → b.lower ≤ w → w ≤ b.upper → False) tbl)
    {rg : IpRange} {v : Int} (hmem : rg ∈ tbl) (h1 : rg.lower ≤ v)
    (h2 : v ≤ rg.upper) : asofBackward tbl v = some rg := by
  induction tbl with
  | nil => cases hmem
  | cons x rest ih =>
    rw [List.sorted_cons] at hsort
    rw [List.pairwise_cons] at hdisj
    rcases List.mem_cons.mp hmem with rfl | hrest
    · have hnone : asofBackward rest v = none := by
        apply asofBackward_eq_none
        intro s hs hslow
        exact hdisj.1 s hs s.lower (hsort.1 s hs) (le_trans hslow h2)
          (le_refl _) (hwf s (List.mem_cons_of_mem rg hs))
      unfold asofBackward
      rw [hnone]
      rw [if_pos h1]
    · have hr := ih (fun r hr => hwf r (List.mem_cons_of_mem x hr))
        hsort.2 hdisj.2 hrest
      unfold asofBackward
      rw [hr]

/-- On a pairwise-disjoint table, at most one range contains a value. -/
theorem ranges_unique {tbl : List IpRange}
    (hdisj : List.Pairwise (fun a b : IpRange => ∀ w : Int,
      a.lower ≤ w → w ≤ a.upper → b.lower ≤ w → w ≤ b.upper → False) tbl)
    {a b : IpRange} {v : Int} (ha : a ∈ tbl) (hb : b ∈ tbl)
    (ha1 : a.lower ≤ v) (ha2 : v ≤ a.upper) (hb1 : b.lower ≤ v)
    (hb2 : v ≤ b.upper) : a = b := by
  by_contra hne
  have hsym : Symmetric (fun a b : IpRange => ∀ w : Int,
      a.lower ≤ w → w ≤ a.upper → b.lower ≤ w → w ≤ b.upper → False) :=
    fun x y hxy w w1 w2 w3 w4 => hxy w w3 w4 w1 w2
  exact hdisj.forall hsym ha hb hne v ha1 ha2 hb1 hb2

/-- A row whose `ip_int` is present survives the `astype` cast. -/
theorem astypeCol_mem {l : List CleanRow} {rows : List ReadyRow}
    (h : astypeCol l = .ok rows) {c : CleanRow} (hc : c ∈ l) {v : Int}
    (hv : c.ip_int = some v) :
    (⟨c.t, c.purchase_day, c.purchase_hour, v⟩ : ReadyRow) ∈ rows := by
  induction l generalizing rows with
  | nil => cases hc
  | cons c0 rest ih =>
    unfold astypeCol at h
    cases h0 : c0.ip_int with
    | none =>
      rw [h0] at h
      cases h
    | some v0 =>
      rw [h0] at h
      cases hr : astypeCol rest with
      | error e =>
        rw [hr] at h
        cases h
      | ok rs =>
        rw [hr] at h
        injection h with h
        subst h
        rcases List.mem_cons.mp hc with rfl | hcrest
        · rw [h0] at hv
          injection hv with hv
          subst hv
          exact List.mem_cons_self _ _
        · exact List.mem_cons_of_mem _ (ih hr hcrest)

/-- Every row surviving the `astype` cast comes from an input row with
that `ip_int`. -/
theorem astypeCol_src {l : List CleanRow} {rows : List ReadyRow}
    (h : astypeCol l = .ok rows) {r : ReadyRow} (hr : r ∈ rows) :
    ∃ c ∈ l, c.ip_int = some r.ip_int ∧
      r = ⟨c.t, c.purchase_day, c.purchase_hour, r.ip_int⟩ := by
  induction l generalizing rows with
  | nil =>
    unfold astypeCol at h
    injection h with h
    subst h
    cases hr
  | cons c0 rest ih =>
    unfold astypeCol at h
    cases h0 : c0.ip_int with
    | none =>
      rw [h0] at h
      cases h
    | some v0 =>
      rw [h0] at h
      cases hrec : astypeCol rest with
      | error e =>
        rw [hrec] at h
        cases h
      | ok rs =>
        rw [hrec] at h
        injection h with h
        subst h
        rcases List.mem_cons.mp hr with rfl | hrs
        · exact ⟨c0, List.mem_cons_self _ _, by rw [h0], rfl⟩
        · obtain ⟨c, hcmem, hcip, hceq⟩ := ih hrec hrs
          exact ⟨c, List.mem_cons_of_mem _ hcmem, hcip, hceq⟩

/-- Sorting the left frame does not change its rows. -/
theorem mem_sortReady {r : ReadyRow} {rows : List ReadyRow} :
    r ∈ sortReady rows ↔ r ∈ rows := by
  unfold sortReady
  exact List.mem_insertionSort _

/-- A table already sorted by lower bound is unchanged by the sort. -/
theorem sortRanges_sorted_eq {tbl : List IpRange}
    (hs : List.Sorted (fun a b : IpRange => a.lower ≤ b.lower) tbl) :
    sortRanges tbl = tbl :=
  hs.insertionSort_eq

/-- Membership in the merged-and-filtered frame, unfolded. -/
theorem mem_mergeAndFilter {rows : List ReadyRow} {tbl : List IpRange}
    {e : Enriched} :
    e ∈ mergeAndFilter rows tbl ↔
      ∃ r ∈ rows, ∃ rg, asofBackward tbl r.ip_int = some rg ∧
        rg.lower ≤ r.ip_int ∧ r.ip_int ≤ rg.upper ∧ e = ⟨r, rg.country⟩ := by
  unfold mergeAndFilter
  rw [List.mem_filterMap]
  constructor
  · rintro ⟨r, hrmem, hfr⟩
    rw [mem_sortReady] at hrmem
    revert hfr
    cases hasof : asofBackward tbl r.ip_int with
    | none =>
      intro hfr
      cases hfr
    | some rg =>
      intro hfr
      dsimp only at hfr
      by_cases hcond : rg.lower ≤ r.ip_int ∧ r.ip_int ≤ rg.upper
      · rw [if_pos hcond] at hfr
        injection hfr with hfr
        exact ⟨r, hrmem, rg, hasof, hcond.1, hcond.2, hfr.symm⟩
      · rw [if_neg hcond] at hfr
        cases hfr
  · rintro ⟨r, hrmem, rg, hasof, hc1, hc2, rfl⟩
    refine ⟨r, mem_sortReady.mpr hrmem, ?_⟩
    rw [hasof]
    dsimp only
    rw [if_pos ⟨hc1, hc2⟩]

/-- A successful `process_ecommerce_data` run is the cast of the cleaned
rows followed by the join against the sorted table. -/
theorem process_ok_iff {fd : List Transaction} {tbl : List IpRange}
    {out : List Enriched} (h : process_ecommerce_data fd tbl = .ok out) :
    ∃ rows, astypeCol (fd.map cleanRow) = .ok rows ∧
      out = mergeAndFilter rows (sortRanges tbl) := by
  unfold process_ecommerce_data at h
  dsimp only at h
  cases ha : astypeCol (fd.map cleanRow) with
  | error e =>
    rw [ha] at h
    cases h
  | ok rows =>
    rw [ha] at h
    injection h with h
    exact ⟨rows, rfl, h.symm⟩

/-- Cleaning keeps every original column of a transaction. -/
theorem cleanRow_t (t : Transaction) : (cleanRow t).t = t := rfl

/-- C1: under the spec's table invariant (genuine, sorted, disjoint
ranges), a transaction whose IP integer lies in some range is assigned
exactly that range's country by `process_ecommerce_data`, and this
agrees with a direct interval-containment lookup. -/
theorem asof_join_matches_containing_range
    (fd : List Transaction) (tbl : List IpRange) (out : List Enriched)
    (hok : RangesOK tbl)
    (hproc : process_ecommerce_data fd tbl = .ok out)
    (t : Transaction) (ht : t ∈ fd) (v : Int)
    (hv : (cleanRow t).ip_int = some v)
    (rg : IpRange) (hrg : rg ∈ tbl) (h1 : rg.lower ≤ v) (h2 : v ≤ rg.upper) :
    (∃ e ∈ out, e.row.t = t ∧ e.country = rg.country) ∧
    (∀ e ∈ out, e.row.t = t → e.country = rg.country) ∧
    directLookup tbl v = some rg.country := by
  obtain ⟨hwf, hsort, hdisj⟩ := hok
  obtain ⟨rows, hast, hout⟩ := process_ok_iff hproc
  rw [sortRanges_sorted_eq hsort] at hout
  have hasof : asofBackward tbl v = some rg :=
    asofBackward_of_contains hwf hsort hdisj hrg h1 h2
  have hready : (⟨(cleanRow t).t, (cleanRow t).purchase_day,
      (cleanRow t).purchase_hour, v⟩ : ReadyRow) ∈ rows :=
    astypeCol_mem hast (List.mem_map_of_mem cleanRow ht) hv
  refine ⟨?_, ?_, ?_⟩
  · refine ⟨⟨⟨(cleanRow t).t, (cleanRow t).purchase_day,
      (cleanRow t).purchase_hour, v⟩, rg.country⟩, ?_, cleanRow_t t, rfl⟩
    rw [hout, mem_mergeAndFilter]
    exact ⟨_, hready, rg, hasof, h1, h2, rfl⟩
  · intro e he het
    rw [hout, mem_mergeAndFilter] at he
    obtain ⟨r, hrmem, rg', hasof', hc1, hc2, rfl⟩ := he
    obtain ⟨c, hcmem, hcip, hceq⟩ := astypeCol_src hast hrmem
    obtain ⟨t', ht', rfl⟩ := List.mem_map.mp hcmem
    have hrt : r.t = t' := by
      rw [hceq]
      exact cleanRow_t t'
    rw [hrt] at het
    subst het
    rw [hv] at hcip
    injection hcip with hcip
    rw [← hcip] at hasof'
    rw [hasof] at hasof'
    injection hasof' with hasof'
    rw [← hasof']
  · unfold directLookup
    cases hfind : tbl.find? (fun rg => decide (rg.lower ≤ v ∧ v ≤ rg.upper)) with
    | none =>
      rw [List.find?_eq_none] at hfind
      exact absurd (by simp [h1, h2] : (fun rg : IpRange =>
        decide (rg.lower ≤ v ∧ v ≤ rg.upper)) rg = true) (by simpa using hfind rg hrg)
    | some s =>
      have hsmem := List.mem_of_find?_eq_some hfind
      have hps := List.find?_some hfind
      simp only [decide_eq_true_eq] at hps
      have hsrg : s = rg := ranges_unique hdisj hsmem hrg hps.1 hps.2 h1 h2
      rw [hsrg]
      rfl

/-- Witness for `asof_join_matches_containing_range`: the IP integer 5
inside the single range `[0, 10] ↦ Albania`. -/
theorem asof_join_matches_containing_range_witness :
    directLookup [⟨0, 10, "Albania"⟩] 5 = some "Albania" :=
  (asof_join_matches_containing_range [mkTrans (some 5) 1]
    [⟨0, 10, "Albania"⟩]
    [⟨⟨mkTrans (some 5) 1, "Thursday", 1, 5⟩, "Albania"⟩]
    ⟨by decide, by decide, by simp⟩ rfl
    (mkTrans (some 5) 1) (by decide) 5 (by decide)
    ⟨0, 10, "Albania"⟩ (by decide) (by decide) (by decide)).2.2

/-- C2 (amended): under the table invariant, a successful
`process_ecommerce_data` keeps exactly the transactions whose IP integer
falls inside some range (carrying that range's country); a transaction
matching no range is removed from the result instead of being kept with
an absent country. -/
theorem process_output_iff_in_range
    (fd : List Transaction) (tbl : List IpRange) (out : List Enriched)
    (hok : RangesOK tbl)
    (hproc : process_ecommerce_data fd tbl = .ok out) :
    (∀ e ∈ out, ∃ rg ∈ tbl, rg.lower ≤ e.row.ip_int ∧
      e.row.ip_int ≤ rg.upper ∧ e.country = rg.country) ∧
    (∀ t ∈ fd, ∀ v : Int, (cleanRow t).ip_int = some v →
      ((∃ rg ∈ tbl, rg.lower ≤ v ∧ v ≤ rg.upper) ↔
        ∃ e ∈ out, e.row.t = t)) := by
  obtain ⟨hwf, hsort, hdisj⟩ := hok
  obtain ⟨rows, hast, hout⟩ := process_ok_iff hproc
  rw [sortRanges_sorted_eq hsort] at hout
  constructor
  · intro e he
    rw [hout, mem_mergeAndFilter] at he
    obtain ⟨r, hrmem, rg, hasof, hc1, hc2, rfl⟩ := he
    exact ⟨rg, asofBackward_mem hasof, hc1, hc2, rfl⟩
  · intro t ht v hv
    constructor
    · rintro ⟨rg, hrg, h1, h2⟩
      have hasof : asofBackward tbl v = some rg :=
        asofBackward_of_contains hwf hsort hdisj hrg h1 h2
      have hready : (⟨(cleanRow t).t, (cleanRow t).purchase_day,
          (cleanRow t).purchase_hour, v⟩ : ReadyRow) ∈ rows :=
        astypeCol_mem hast (List.mem_map_of_mem cleanRow ht) hv
      refine ⟨⟨⟨(cleanRow t).t, (cleanRow t).purchase_day,
        (cleanRow t).purchase_hour, v⟩, rg.country⟩, ?_, cleanRow_t t⟩
      rw [hout, mem_mergeAndFilter]
      exact ⟨_, hready, rg, hasof, h1, h2, rfl⟩
    · rintro ⟨e, he, het⟩
      rw [hout, mem_mergeAndFilter] at he
      obtain ⟨r, hrmem, rg, hasof, hc1, hc2, rfl⟩ := he
      obtain ⟨c, hcmem, hcip, hceq⟩ := astypeCol_src hast hrmem
      obtain ⟨t', ht', rfl⟩ := List.mem_map.mp hcmem
      have hrt : r.t = t' := by
        rw [hceq]
        exact cleanRow_t t'
      rw [hrt] at het
      subst het
      rw [hv] at hcip
      injection hcip with hcip
      rw [← hcip] at hc1 hc2
      exact ⟨rg, asofBackward_mem hasof, hc1, hc2⟩

/-- Witness for `process_output_iff_in_range`: a transaction whose IP
integer 50 matches no range corresponds to no output row. -/
theorem process_output_iff_in_range_witness :
    (∃ rg ∈ [(⟨0, 10, "Albania"⟩ : IpRange)],
      rg.lower ≤ (50 : Int) ∧ (50 : Int) ≤ rg.upper) ↔
    (∃ e ∈ ([] : List Enriched), e.row.t = mkTrans (some 50) 0) :=
  (process_output_iff_in_range [mkTrans (some 50) 0] [⟨0, 10, "Albania"⟩]
    [] ⟨by decide, by decide, by simp⟩ rfl).2
    (mkTrans (some 50) 0) (by decide) 50 (by decide)

end FraudDashboard

namespace FraudDashboard

/-- A pair is in a `groupby(...).sum()` series exactly when its key
occurs in the data and its value is the sum over that key's group. -/
theorem mem_groupSum {K : Type} [DecidableEq K] (r : K → K → Prop)
    [DecidableRel r] (key : Enriched → K) (val : Enriched → Int)
    (rows : List Enriched) (k : K) (n : Int) :
    (k, n) ∈ groupSum r key val rows ↔
      k ∈ rows.map key ∧
        n = ((rows.filter fun e => key e = k).map val).sum := by
  unfold groupSum
  rw [List.mem_map]
  constructor
  · rintro ⟨k', hk', hkeq⟩
    injection hkeq with h1 h2
    subst h1
    rw [List.mem_insertionSort, List.mem_dedup] at hk'
    exact ⟨hk', h2.symm⟩
  · rintro ⟨hk, rfl⟩
    refine ⟨k, ?_, rfl⟩
    rw [List.mem_insertionSort, List.mem_dedup]
    exact hk

/-- A pair is in a `groupby(...).size()` series exactly when its key
occurs in the data and its value is that key's group size. -/
theorem mem_groupSize {K : Type} [DecidableEq K] (r : K → K → Prop)
    [DecidableRel r] (key : Enriched → K) (rows : List Enriched) (k : K)
    (n : Nat) :
    (k, n) ∈ groupSize r key rows ↔
      k ∈ rows.map key ∧ n = (rows.filter fun e => key e = k).length := by
  unfold groupSize
  rw [List.mem_map]
  constructor
  · rintro ⟨k', hk', hkeq⟩
    injection hkeq with h1 h2
    subst h1
    rw [List.mem_insertionSort, List.mem_dedup] at hk'
    exact ⟨hk', h2.symm⟩
  · rintro ⟨hk, rfl⟩
    refine ⟨k, ?_, rfl⟩
    rw [List.mem_insertionSort, List.mem_dedup]
    exact hk

/-- An entry is in a `groupby([k1, k2]).size().unstack().fillna(0)`
table exactly when both keys occur in the data and its value counts the
rows matching the pair (possibly zero). -/
theorem mem_groupSizeUnstack {K₁ K₂ : Type} [DecidableEq K₁]
    [DecidableEq K₂] (r₁ : K₁ → K₁ → Prop) [DecidableRel r₁]
    (r₂ : K₂ → K₂ → Prop) [DecidableRel r₂] (key₁ : Enriched → K₁)
    (key₂ : Enriched → K₂) (rows : List Enriched) (a : K₁) (b : K₂)
    (n : Nat) :
    ((a, b), n) ∈ groupSizeUnstack r₁ r₂ key₁ key₂ rows ↔
      a ∈ rows.map key₁ ∧ b ∈ rows.map key₂ ∧
        n = (rows.filter fun e => key₁ e = a ∧ key₂ e = b).length := by
  unfold groupSizeUnstack
  rw [List.mem_flatMap]
  constructor
  · rintro ⟨a', ha', hmem⟩
    rw [List.mem_map] at hmem
    obtain ⟨b', hb', heq⟩ := hmem
    injection heq with hab hn
    injection hab with ha1 hb1
    subst ha1
    subst hb1
    rw [List.mem_insertionSort, List.mem_dedup] at ha'
    rw [List.mem_insertionSort, List.mem_dedup] at hb'
    exact ⟨ha', hb', hn.symm⟩
  · rintro ⟨ha, hb, rfl⟩
    refine ⟨a, ?_, ?_⟩
    · rw [List.mem_insertionSort, List.mem_dedup]
      exact ha
    · rw [List.mem_map]
      refine ⟨b, ?_, rfl⟩
      rw [List.mem_insertionSort, List.mem_dedup]
      exact hb

/-- C8: `update_charts` is a pure function of its trigger, click data,
date bounds and the loaded dataset — two invocations with the same
arguments return identical figures — and every figure is a count or sum
grouped by one categorical or temporal key of the (optionally date- or
country-filtered) data. -/
theorem update_charts_deterministic_aggregation
    (triggered : List String) (geo_click : Option ClickData)
    (start_date end_date : Option Int) (data : List Enriched) :
    update_charts triggered geo_click start_date end_date data =
      update_charts triggered geo_click start_date end_date data ∧
    (update_charts triggered geo_click start_date end_date data).1 =
      buildCharts
        (selectFilteredData triggered geo_click start_date end_date data).1 ∧
    (∀ k n, (k, n) ∈ (update_charts triggered geo_click start_date end_date
        data).1.fraud_trends ↔
      k ∈ (selectFilteredData triggered geo_click start_date end_date
        data).1.map dateOf ∧
      n = (((selectFilteredData triggered geo_click start_date end_date
        data).1.filter fun e => dateOf e = k).map fun e => e.row.t.cls).sum) ∧
    (∀ d c n, ((d, c), n) ∈ (update_charts triggered geo_click start_date
        end_date data).1.fraud_device ↔
      d ∈ (selectFilteredData triggered geo_click start_date end_date
        data).1.map (fun e => e.row.t.device_id) ∧
      c ∈ (selectFilteredData triggered geo_click start_date end_date
        data).1.map (fun e => e.row.t.cls) ∧
      n = ((selectFilteredData triggered geo_click start_date end_date
        data).1.filter fun e =>
          e.row.t.device_id = d ∧ e.row.t.cls = c).length) ∧
    (∀ b c n, ((b, c), n) ∈ (update_charts triggered geo_click start_date
        end_date data).1.fraud_browser ↔
      b ∈ (selectFilteredData triggered geo_click start_date end_date
        data).1.map (fun e => e.row.t.browser) ∧
      c ∈ (selectFilteredData triggered geo_click start_date end_date
        data).1.map (fun e => e.row.t.cls) ∧
      n = ((selectFilteredData triggered geo_click start_date end_date
        data).1.filter fun e =>
          e.row.t.browser = b ∧ e.row.t.cls = c).length) ∧
    (∀ k n, (k, n) ∈ (update_charts triggered geo_click start_date end_date
        data).1.fraud_hour ↔
      k ∈ ((selectFilteredData triggered geo_click start_date end_date
        data).1.filter fun e => e.row.t.cls = 1).map
          (fun e => e.row.purchase_hour) ∧
      n = (((selectFilteredData triggered geo_click start_date end_date
        data).1.filter fun e => e.row.t.cls = 1).filter fun e =>
          e.row.purchase_hour = k).length) ∧
    (∀ k n, (k, n) ∈ (update_charts triggered geo_click start_date end_date
        data).1.fraud_day ↔
      k ∈ ((selectFilteredData triggered geo_click start_date end_date
        data).1.filter fun e => e.row.t.cls = 1).map
          (fun e => e.row.purchase_day) ∧
      n = (((selectFilteredData triggered geo_click start_date end_date
        data).1.filter fun e => e.row.t.cls = 1).filter fun e =>
          e.row.purchase_day = k).length) := by
  refine ⟨rfl, rfl, ?_, ?_, ?_, ?_, ?_⟩
  · intro k n
    exact mem_groupSum intLe dateOf (fun e => e.row.t.cls)
      (selectFilteredData triggered geo_click start_date end_date data).1 k n
  · intro d c n
    exact mem_groupSizeUnstack stringLe intLe (fun e => e.row.t.device_id)
      (fun e => e.row.t.cls)
      (selectFilteredData triggered geo_click start_date end_date data).1 d c n
  · intro b c n
    exact mem_groupSizeUnstack stringLe intLe (fun e => e.row.t.browser)
      (fun e => e.row.t.cls)
      (selectFilteredData triggered geo_click start_date end_date data).1 b c n
  · intro k n
    exact mem_groupSize intLe (fun e => e.row.purchase_hour)
      ((selectFilteredData triggered geo_click start_date end_date
        data).1.filter fun e => e.row.t.cls = 1) k n
  · intro k n
    exact mem_groupSize stringLe (fun e => e.row.purchase_day)
      ((selectFilteredData triggered geo_click start_date end_date
        data).1.filter fun e => e.row.t.cls = 1) k n

end FraudDashboard
